import Mathlib

/-!
# Verification of the vidkit filename-parsing and renaming core

This file embeds the string-processing core of the vidkit repository in Lean 4
and proves (or refutes) the specification claims about it.

The embedded code comes from:
* `internal/pkg/metadata/tmdb.go` — `ExtractMovieInfo`, `SearchMovie`, the
  title-cleaning step, and the year-pattern scanner;
* `internal/pkg/metadata/tvmaze.go` (second block) — its older
  `ExtractMovieInfo` variant;
* `cmd/vidkit/main.go` — the filename-rendering pipelines of
  `generateFilename` and `generateTVFilename`.

Go standard-library string primitives (`strings.NewReplacer`,
`strings.ReplaceAll`, `strings.TrimSpace`, `strings.ToLower`, the regexp
operations used, `filepath.Base`/`Ext`, `fmt.Sprintf` on integers) are modelled
below on `List Char`.  Recursion that consumes a variable number of characters
per step is driven by a fuel argument (always instantiated with the length of
the input), so that every definition is structural and kernel-computable.
-/

namespace VidKit

/-! ## Go character classes -/

/-- The character class of Go's regexp `\s`, namely `[\t\n\f\r ]`.
This is the class used by the whitespace-collapsing regexp in
`ExtractMovieInfo`. -/
def isReSpace (c : Char) : Bool :=
  c == ' ' || c == '\t' || c == '\n' || c == '\x0c' || c == '\r'

/-- Go's `unicode.IsSpace`, used by `strings.TrimSpace`: Unicode white space.
The class is `\t \n \v \f \r ' '` plus NEL, NBSP and the higher space code
points. -/
def isGoSpace (c : Char) : Bool :=
  isReSpace c || c == '\x0b' || c == '\x85' || c == '\xa0' ||
  c == '\u1680' || ('\u2000' ≤ c && c ≤ '\u200A') ||
  c == '\u2028' || c == '\u2029' || c == '\u202F' || c == '\u205F' ||
  c == '\u3000'

theorem isGoSpace_of_isReSpace {c : Char} (h : isReSpace c = true) :
    isGoSpace c = true := by
  simp [isGoSpace, h]

/-- ASCII decimal digit test (Go regexp `\d`). -/
def isDigitChar (c : Char) : Bool := '0' ≤ c && c ≤ '9'

/-- Numeric value of an ASCII digit. -/
def digitVal (c : Char) : Nat := c.toNat - 48

/-! ## Substring occurrence -/

/-- `containsSub pat s` holds when `pat` occurs as a contiguous substring of
`s` (Go `strings.Contains`). -/
def containsSub (pat : List Char) (s : List Char) : Bool :=
  match s with
  | [] => pat.isEmpty
  | _ :: rest => pat.isPrefixOf s || containsSub pat rest

theorem containsSub_of_isPrefixOf {pat s : List Char}
    (h : pat.isPrefixOf s = true) : containsSub pat s = true := by
  cases s with
  | nil =>
    cases pat with
    | nil => rfl
    | cons a l => simp [List.isPrefixOf] at h
  | cons c rest => simp [containsSub, h]

theorem containsSub_cons {pat : List Char} {c : Char} {rest : List Char}
    (h : containsSub pat rest = true) : containsSub pat (c :: rest) = true := by
  simp [containsSub, h]

/-! ## Go `strings.NewReplacer(...).Replace`

A single left-to-right pass over the input.  At each position the first rule
(in argument order) whose nonempty pattern is a prefix of the remaining input
fires; its replacement is emitted and the pattern is consumed.  Characters at
positions where no rule fires are copied unchanged.  In the vidkit replacer
vocabularies no two patterns can fire at the same position, so the argument
order is immaterial there. -/

/-- The first rule of `rules` whose nonempty pattern is a prefix of `s`. -/
def findRule (rules : List (List Char × List Char)) (s : List Char) :
    Option (List Char × List Char) :=
  rules.find? (fun r => !r.1.isEmpty && r.1.isPrefixOf s)

/-- Fueled worker for the multi-pattern single-pass replacer.  `fuel` bounds
the number of steps; each step consumes at least one input character, so
`fuel = s.length` always suffices. -/
def multiReplaceAux (rules : List (List Char × List Char)) :
    Nat → List Char → List Char
  | _, [] => []
  | 0, s => s
  | fuel + 1, c :: rest =>
    match findRule rules (c :: rest) with
    | some r => r.2 ++ multiReplaceAux rules fuel ((c :: rest).drop r.1.length)
    | none => c :: multiReplaceAux rules fuel rest

/-- Go `strings.NewReplacer(rules...).Replace(s)` on character lists. -/
def multiReplaceL (rules : List (List Char × List Char)) (s : List Char) :
    List Char :=
  multiReplaceAux rules s.length s

/-- String-level wrapper for the Go multi-pattern replacer. -/
def multiReplace (rules : List (String × String)) (s : String) : String :=
  ⟨multiReplaceL (rules.map (fun r => (r.1.data, r.2.data))) s.data⟩

/-! ## Go `strings.ReplaceAll` -/

/-- Fueled worker for `strings.ReplaceAll` with a fixed nonempty pattern. -/
def replaceAllAux (pat rep : List Char) : Nat → List Char → List Char
  | _, [] => []
  | 0, s => s
  | fuel + 1, c :: rest =>
    if pat.isPrefixOf (c :: rest) then
      rep ++ replaceAllAux pat rep fuel ((c :: rest).drop pat.length)
    else
      c :: replaceAllAux pat rep fuel rest

/-- Go `strings.ReplaceAll s pat rep` (all call sites in the embedded code use
nonempty literal patterns; an empty pattern is treated as the identity). -/
def goReplaceAll (s pat rep : String) : String :=
  if pat.data.isEmpty then s
  else ⟨replaceAllAux pat.data rep.data s.data.length s.data⟩

/-! ## Go `strings.TrimSpace` and the `\s+` collapse -/

/-- Trim Unicode white space from the front (Go `strings.TrimLeft`). -/
def trimLeftSpace (s : List Char) : List Char := s.dropWhile isGoSpace

/-- Trim Unicode white space from the back. -/
def trimRightSpace (s : List Char) : List Char :=
  (s.reverse.dropWhile isGoSpace).reverse

/-- Go `strings.TrimSpace` on character lists. -/
def goTrimSpaceL (s : List Char) : List Char := trimRightSpace (trimLeftSpace s)

/-- Go `strings.TrimSpace`. -/
def goTrimSpace (s : String) : String := ⟨goTrimSpaceL s.data⟩

/-- Worker for `regexp.MustCompile("\s+").ReplaceAllString(s, " ")`: the flag
records whether the previous input character was `\s`-space (in which case
further space characters extend the same run and emit nothing). -/
def collapseAux : Bool → List Char → List Char
  | _, [] => []
  | prevSpace, c :: rest =>
    if isReSpace c then
      if prevSpace then collapseAux true rest
      else ' ' :: collapseAux true rest
    else c :: collapseAux false rest

/-- Replace each maximal run of `\s` characters by a single `' '`. -/
def collapseSpacesL (s : List Char) : List Char := collapseAux false s

/-- `regexp.MustCompile("\s+").ReplaceAllString(s, " ")`. -/
def collapseSpaces (s : String) : String := ⟨collapseSpacesL s.data⟩

/-! ## Go `strings.ToLower` (ASCII)

The embedded code only ever lowercases template output; the model folds the
ASCII uppercase letters (the only case vidkit's tests and formats exercise). -/

/-- ASCII uppercase/lowercase letter pairs. -/
def upperLowerPairs : List (Char × Char) :=
  [('A', 'a'), ('B', 'b'), ('C', 'c'), ('D', 'd'), ('E', 'e'), ('F', 'f'),
   ('G', 'g'), ('H', 'h'), ('I', 'i'), ('J', 'j'), ('K', 'k'), ('L', 'l'),
   ('M', 'm'), ('N', 'n'), ('O', 'o'), ('P', 'p'), ('Q', 'q'), ('R', 'r'),
   ('S', 's'), ('T', 't'), ('U', 'u'), ('V', 'v'), ('W', 'w'), ('X', 'x'),
   ('Y', 'y'), ('Z', 'z')]

/-- Lowercase a single character (ASCII). -/
def toLowerChar (c : Char) : Char :=
  match upperLowerPairs.find? (fun p => p.1 == c) with
  | some p => p.2
  | none => c

/-- Go `strings.ToLower` (ASCII model). -/
def goToLower (s : String) : String := ⟨s.data.map toLowerChar⟩

/-- No pair of `upperLowerPairs` maps to an uppercase letter: lowering the
second component of any pair is the identity. -/
theorem upperLowerPairs_snd_fixed :
    ∀ p ∈ upperLowerPairs, toLowerChar p.2 = p.2 := by decide

/-- Lowercasing a character is idempotent. -/
theorem toLowerChar_idem (c : Char) :
    toLowerChar (toLowerChar c) = toLowerChar c := by
  unfold toLowerChar
  cases h : upperLowerPairs.find? (fun p => p.1 == c) with
  | none => simp [h]
  | some p =>
    have hp : p ∈ upperLowerPairs := List.mem_of_find?_eq_some h
    have := upperLowerPairs_snd_fixed p hp
    simp only []
    unfold toLowerChar at this
    exact this

/-! ## Go integer formatting -/

/-- Decimal digits of a natural number (most significant first); fueled. -/
def natDigitsAux : Nat → Nat → List Char
  | 0, _ => []
  | fuel + 1, n =>
    if n < 10 then [Char.ofNat (48 + n)]
    else natDigitsAux fuel (n / 10) ++ [Char.ofNat (48 + n % 10)]

/-- Decimal representation of a natural number. -/
def natToStr (n : Nat) : String := ⟨natDigitsAux (n + 1) n⟩

/-- Go `fmt.Sprintf("%d", i)` for an `int`. -/
def goItoa (i : Int) : String :=
  if i < 0 then "-" ++ natToStr i.natAbs else natToStr i.toNat

/-- Go `fmt.Sprintf("%02d", i)`: pad the decimal form with zeros on the left
to width 2 (the sign counts towards the width). -/
def goSprintf02d (i : Int) : String :=
  let s := goItoa i
  if s.data.length < 2 then "0" ++ s else s

/-! ## Go `path/filepath` helpers -/

/-- Worker for `filepath.Ext`: walk the reversed path; the extension is the
suffix from the final dot of the final slash-separated element. -/
def filepathExtAux : List Char → List Char → List Char
  | [], _ => []
  | c :: rest, acc =>
    if c = '/' then []
    else if c = '.' then c :: acc
    else filepathExtAux rest (c :: acc)

/-- Go `filepath.Ext`. -/
def goFilepathExt (s : String) : String := ⟨filepathExtAux s.data.reverse []⟩

/-- Go `filepath.Base`: the last element of the path, after removing trailing
slashes; `"."` for the empty path, `"/"` for an all-slash path. -/
def goFilepathBase (s : String) : String :=
  if s.data.isEmpty then "."
  else
    let r := s.data.reverse.dropWhile (fun c => c == '/')
    if r.isEmpty then "/"
    else ⟨(r.takeWhile (fun c => !(c == '/'))).reverse⟩

/-- Go `strings.TrimSuffix`. -/
def goTrimSuffix (s suffix : String) : String :=
  if suffix.data.isSuffixOf s.data then
    ⟨s.data.take (s.data.length - suffix.data.length)⟩
  else s

/-! ## The year-pattern scanners

`tmdb.go` uses `\((\d{4})\)|\[(\d{4})\]|\.(\d{4})\.` and the `tvmaze.go`
variant uses `\((\d{4})\)`.  The three alternatives are distinguished by their
first character, so Go's leftmost-match semantics amounts to a left-to-right
scan that, at each position, tests the six-character shapes and on a match
continues after the consumed characters. -/

/-- Try to match `ob dddd cb` at the head of `s`; on success return the
numeric value of the four digits and the input after the match. -/
def delimYearAt (ob cb : Char) (s : List Char) : Option (Nat × List Char) :=
  match s with
  | o :: d1 :: d2 :: d3 :: d4 :: c :: rest =>
    if o = ob ∧ c = cb ∧ isDigitChar d1 ∧ isDigitChar d2 ∧ isDigitChar d3 ∧
        isDigitChar d4 then
      some (digitVal d1 * 1000 + digitVal d2 * 100 + digitVal d3 * 10 +
        digitVal d4, rest)
    else none
  | _ => none

/-- One step of the `tmdb.go` year regexp: the three alternatives in order. -/
def tmdbYearAt (s : List Char) : Option (Nat × List Char) :=
  match delimYearAt '(' ')' s with
  | some r => some r
  | none =>
    match delimYearAt '[' ']' s with
    | some r => some r
    | none => delimYearAt '.' '.' s

/-- `FindAllStringSubmatch` for the `tmdb.go` year regexp: the values of all
non-overlapping matches, left to right. -/
def tmdbYearScanAux : Nat → List Char → List Nat
  | _, [] => []
  | 0, _ => []
  | fuel + 1, c :: rest =>
    match tmdbYearAt (c :: rest) with
    | some (v, after) => v :: tmdbYearScanAux fuel after
    | none => tmdbYearScanAux fuel rest

/-- All match values of the `tmdb.go` year regexp in `s`. -/
def tmdbYearScan (s : List Char) : List Nat := tmdbYearScanAux s.length s

/-- `ReplaceAllString(s, " ")` for the `tmdb.go` year regexp. -/
def tmdbYearStripAux : Nat → List Char → List Char
  | _, [] => []
  | 0, s => s
  | fuel + 1, c :: rest =>
    match tmdbYearAt (c :: rest) with
    | some (_, after) => ' ' :: tmdbYearStripAux fuel after
    | none => c :: tmdbYearStripAux fuel rest

/-- Strip all `tmdb.go` year-pattern matches, replacing each with `" "`. -/
def tmdbYearStrip (s : List Char) : List Char := tmdbYearStripAux s.length s

/-- The year selected by the match loop in `tmdb.go` lines 111-124: the value
of the first match whose parsed value is nonzero, else `0`. -/
def pickYear (l : List Nat) : Nat := (l.find? (fun v => v != 0)).getD 0

/-- First match value of the `tvmaze.go` year regexp `\((\d{4})\)`
(`FindStringSubmatch`). -/
def parenYearFindAux : Nat → List Char → Option Nat
  | _, [] => none
  | 0, _ => none
  | fuel + 1, c :: rest =>
    match delimYearAt '(' ')' (c :: rest) with
    | some (v, _) => some v
    | none => parenYearFindAux fuel rest

/-- First `\((\d{4})\)` match value in `s`. -/
def parenYearFind (s : List Char) : Option Nat := parenYearFindAux s.length s

/-- `ReplaceAllString(s, "")` for the `tvmaze.go` year regexp. -/
def parenYearStripAux : Nat → List Char → List Char
  | _, [] => []
  | 0, s => s
  | fuel + 1, c :: rest =>
    match delimYearAt '(' ')' (c :: rest) with
    | some (_, after) => parenYearStripAux fuel after
    | none => c :: parenYearStripAux fuel rest

/-- Remove all `\((\d{4})\)` matches from `s`. -/
def parenYearStrip (s : List Char) : List Char := parenYearStripAux s.length s

/-! ## The `metadata` package data model -/

/-- `metadata.MovieSearch` — a movie search request. -/
structure MovieSearch where
  Title : String
  Year : Int
  deriving DecidableEq, Repr

namespace tmdb

/-- The `strings.NewReplacer` vocabulary of `tmdb.go` lines 132-149: quality
and codec tokens are deleted; structural punctuation becomes a space. -/
def movieReplacerRules : List (String × String) :=
  [(("1080p"), ("")), (("720p"), ("")), (("480p"), ("")), (("360p"), ("")),
   (("h264"), ("")), (("x264"), ("")), (("HDRip"), ("")), (("BRRip"), ("")),
   (("BluRay"), ("")), (("WEB-DL"), ("")),
   (("["), (" ")), (("]"), (" ")), (("("), (" ")), ((")"), (" ")),
   (("."), (" ")), (("_"), (" "))]

/-- The title-cleaning step of `tmdb.go` `ExtractMovieInfo` (lines 131-152):
one pass of the replacer, then `\s+` collapse of the trimmed string. -/
def cleanupTitle (t : String) : String :=
  collapseSpaces (goTrimSpace (multiReplace movieReplacerRules t))

/-- `metadata.ExtractMovieInfo` as defined in `tmdb.go` lines 101-158. -/
def ExtractMovieInfo (filename : String) : MovieSearch :=
  let basename := goTrimSuffix (goFilepathBase filename) (goFilepathExt filename)
  let year : Int := pickYear (tmdbYearScan basename.data)
  let title := if year > 0 then (⟨tmdbYearStrip basename.data⟩ : String)
    else basename
  { Title := cleanupTitle title, Year := year }

end tmdb

namespace tvmaze

/-- The `strings.NewReplacer` vocabulary of the `tvmaze.go` variant
(lines 341-352): six tokens and the four bracket characters are deleted. -/
def movieReplacerRules : List (String × String) :=
  [(("1080p"), ("")), (("720p"), ("")), (("480p"), ("")), (("360p"), ("")),
   (("h264"), ("")), (("x264"), ("")),
   (("["), ("")), (("]"), ("")), (("("), ("")), ((")"), (""))]

/-- `metadata.ExtractMovieInfo` as defined in the `tvmaze.go` block
(lines 323-358). -/
def ExtractMovieInfo (filename : String) : MovieSearch :=
  let basename := goTrimSuffix (goFilepathBase filename) (goFilepathExt filename)
  let found := parenYearFind basename.data
  let year : Int := match found with
    | some y => (y : Int)
    | none => 0
  let title := match found with
    | some _ => goTrimSpace (⟨parenYearStrip basename.data⟩ : String)
    | none => basename
  let title := multiReplace movieReplacerRules title
  { Title := goTrimSpace title, Year := year }

end tvmaze

/-- `metadata.MovieMetadata` — movie metadata as returned by a provider. -/
structure MovieMetadata where
  Title : String
  Year : Int
  Overview : String
  deriving DecidableEq, Repr

/-! ## `TMDbProvider.SearchMovie` (`tmdb.go` lines 50-98)

The TMDb client is an interface (`TMDbClient`); it is modelled as a record of
two functions.  The Go `map[string]string` URL options hold the language and,
optionally, the year; `delete(options, "year")` corresponds to clearing the
`year` field. -/

/-- One entry of `tmdb.SearchMovies.Results`; only the `ID` field is read. -/
structure SearchResultItem where
  ID : Int
  deriving DecidableEq, Repr

/-- `tmdb.SearchMovies` — a search response. -/
structure SearchMovies where
  Results : List SearchResultItem
  deriving DecidableEq, Repr

/-- The `tmdb.MovieDetails` fields read by `SearchMovie`. -/
structure MovieDetails where
  Title : String
  ReleaseDate : String
  Overview : String
  deriving DecidableEq, Repr

/-- The URL options map: always a language, optionally a year. -/
structure MovieOptions where
  language : String
  year : Option Int
  deriving DecidableEq, Repr

/-- The `TMDbClient` interface of `tmdb.go` lines 28-31. -/
structure TMDbClientModel where
  GetSearchMovies : String → MovieOptions → Except String SearchMovies
  GetMovieDetails : Int → MovieOptions → Except String MovieDetails

/-- Whether `y` is a leap year (Gregorian). -/
def isLeapYear (y : Nat) : Bool :=
  y % 4 == 0 && (y % 100 != 0 || y % 400 == 0)

/-- Number of days of month `m` in year `y`. -/
def daysInMonth (y m : Nat) : Nat :=
  if m = 2 then (if isLeapYear y then 29 else 28)
  else if m = 4 ∨ m = 6 ∨ m = 9 ∨ m = 11 then 30
  else 31

/-- `time.Parse("2006-01-02", s)` restricted to the year of the result:
`some year` when `s` is a valid `YYYY-MM-DD` date, else `none`. -/
def goParseDateYear (s : String) : Option Int :=
  match s.data with
  | [y1, y2, y3, y4, s1, m1, m2, s2, d1, d2] =>
    if s1 = '-' ∧ s2 = '-' ∧ isDigitChar y1 ∧ isDigitChar y2 ∧ isDigitChar y3 ∧
        isDigitChar y4 ∧ isDigitChar m1 ∧ isDigitChar m2 ∧ isDigitChar d1 ∧
        isDigitChar d2 then
      let year := digitVal y1 * 1000 + digitVal y2 * 100 + digitVal y3 * 10 +
        digitVal y4
      let month := digitVal m1 * 10 + digitVal m2
      let day := digitVal d1 * 10 + digitVal d2
      if 1 ≤ month ∧ month ≤ 12 ∧ 1 ≤ day ∧ day ≤ daysInMonth year month then
        some (year : Int)
      else none
    else none
  | _ => none

/-- The year computation of `tmdb.go` lines 86-91: `0` when the release date
is empty or fails to parse. -/
def releaseDateYear (s : String) : Int :=
  if s = ("") then 0
  else
    match goParseDateYear s with
    | some y => y
    | none => 0

namespace tmdb

/-- The tail of `SearchMovie` (lines 79-97): fetch the details of the first
search result with the current options and build the returned metadata. -/
def detailsStep (p : TMDbClientModel) (options : MovieOptions)
    (r0 : SearchResultItem) : Except String MovieMetadata :=
  match p.GetMovieDetails r0.ID options with
  | .error e => .error (("failed to get movie details: ") ++ e)
  | .ok movie =>
    .ok { Title := movie.Title, Year := releaseDateYear movie.ReleaseDate,
          Overview := movie.Overview }

/-- `TMDbProvider.SearchMovie` (`tmdb.go` lines 50-98). -/
def SearchMovie (p : TMDbClientModel) (search : MovieSearch)
    (language : String) : Except String MovieMetadata :=
  let options : MovieOptions :=
    { language := language,
      year := if search.Year > 0 then some search.Year else none }
  match p.GetSearchMovies search.Title options with
  | .error e => .error (("failed to search movie: ") ++ e)
  | .ok searchResults =>
    match searchResults.Results with
    | [] =>
      if search.Year > 0 then
        let options2 : MovieOptions := { options with year := none }
        match p.GetSearchMovies search.Title options2 with
        | .error e => .error (("failed to search movie: ") ++ e)
        | .ok searchResults2 =>
          match searchResults2.Results with
          | [] =>
            .error (("no movies found matching \x27") ++ search.Title ++ "\x27")
          | r0 :: _ => detailsStep p options2 r0
      else
        .error (("no movies found matching \x27") ++ search.Title ++ "\x27")
    | r0 :: _ => detailsStep p options r0

end tmdb

/-! ## The `cmd/vidkit` renderer (`main.go`)

`generateFilename` and `generateTVFilename` compute a filename component
`name` from the configured format template and then join it with a target
directory.  The claims concern the `name` computation (lines 322-351 and
433-482 of the first `main.go` block; the second block's pipeline is
identical), so the embedding models that computation, taking the already
extracted `resolutionStr` and `codec` stream values as arguments. -/

/-- The `config.Config` fields consumed by the renderer's `name` pipeline. -/
structure Config where
  MovieFormat : String
  TVFormat : String
  LowerCase : Bool
  Separator : String
  deriving Repr

/-- The `metadata.TVShowMetadata` fields consumed by the renderer's `name`
pipeline. -/
structure TVShowMetadata where
  Title : String
  Year : Int
  Season : Int
  Episode : Int
  EpisodeTitle : String
  deriving DecidableEq, Repr

/-- The `yearStr` local of the renderers: decimal year when positive, else
empty. -/
def yearString (year : Int) : String :=
  if year > 0 then goItoa year else ""

/-- The final two steps shared by both renderers (lines 343-351 and 474-482):
lowercase the name if configured, then replace spaces by the configured
separator when it is not `" "`. -/
def applyCaseAndSeparator (cfg : Config) (name : String) : String :=
  let name := if cfg.LowerCase then goToLower name else name
  if cfg.Separator ≠ (" ") then goReplaceAll name (" ") cfg.Separator else name

/-- The `name` computation of `generateFilename` (`main.go` lines 322-351). -/
def generateFilenameName (cfg : Config) (m : MovieMetadata)
    (resolutionStr codec : String) : String :=
  let name := cfg.MovieFormat
  let name := goReplaceAll name ("\x7btitle\x7d") m.Title
  let name := goReplaceAll name ("\x7byear\x7d") (yearString m.Year)
  let name := goReplaceAll name ("\x7bresolution\x7d") resolutionStr
  let name := goReplaceAll name ("\x7bcodec\x7d") codec
  applyCaseAndSeparator cfg name

/-- The `episodeTitle` local of `generateTVFilename` (lines 461-465): an empty
episode title falls back to `"Episode "` followed by the unpadded episode
number. -/
def episodeTitleOrDefault (episodeTitle episode : String) : String :=
  if episodeTitle = ("") then ("Episode ") ++ episode else episodeTitle

/-- The `name` computation of `generateTVFilename` (`main.go` lines 433-482). -/
def generateTVFilenameName (cfg : Config) (m : TVShowMetadata)
    (resolutionStr codec : String) : String :=
  let name := cfg.TVFormat
  let name := goReplaceAll name ("\x7btitle\x7d") m.Title
  let name := goReplaceAll name ("\x7byear\x7d") (yearString m.Year)
  let season := goItoa m.Season
  let seasonWithZero := goSprintf02d m.Season
  let name := goReplaceAll name ("\x7bseason:02d\x7d") seasonWithZero
  let name := goReplaceAll name ("\x7bseason\x7d") season
  let episode := goItoa m.Episode
  let episodeWithZero := goSprintf02d m.Episode
  let name := goReplaceAll name ("\x7bepisode:02d\x7d") episodeWithZero
  let name := goReplaceAll name ("\x7bepisode\x7d") episode
  let name := goReplaceAll name ("\x7bepisode_title\x7d")
    (episodeTitleOrDefault m.EpisodeTitle episode)
  let name := goReplaceAll name ("\x7bresolution\x7d") resolutionStr
  let name := goReplaceAll name ("\x7bcodec\x7d") codec
  applyCaseAndSeparator cfg name

end VidKit

section ScratchChecks

open VidKit

example : multiReplace [(("ab"), ("X"))] ("zabab") = "zXX" := by decide

example : collapseSpaces ("a  b   c") = "a b c" := by decide

example : goTrimSpace ("  a b  ") = "a b" := by decide

example : goReplaceAll ("a b c") (" ") (".") = "a.b.c" := by decide

example : goItoa (12 : Int) = "12" := by decide

example : goSprintf02d (5 : Int) = "05" := by decide

example : goToLower ("AbC:") = "abc:" := by decide

example : goFilepathExt ("The.Matrix.1999.mp4") = ".mp4" := by decide

example : goFilepathBase ("a/b/c.mp4") = "c.mp4" := by decide

example :
    goTrimSuffix ("The.Matrix.1999.mp4") (".mp4") = "The.Matrix.1999" := by
  decide

example :
    tmdb.ExtractMovieInfo ("Big Buck Bunny (2008).mp4") =
      { Title := "Big Buck Bunny", Year := 2008 } := by decide

example :
    tmdb.ExtractMovieInfo ("Big.Buck.Bunny.2008.1080p.x264.mp4") =
      { Title := "Big Buck Bunny", Year := 2008 } := by decide

example :
    tmdb.ExtractMovieInfo ("The.Matrix.1999.mp4") =
      { Title := "The Matrix 1999", Year := 0 } := by decide

example :
    tmdb.ExtractMovieInfo ("Breaking Bad S01E01.mp4") =
      { Title := "Breaking Bad S01E01", Year := 0 } := by decide

example :
    tmdb.ExtractMovieInfo ("Big Buck Bunny (2008) (2009).mp4") =
      { Title := "Big Buck Bunny", Year := 2008 } := by decide

example :
    tvmaze.ExtractMovieInfo ("The Matrix [1999].mp4") =
      { Title := "The Matrix 1999", Year := 0 } := by decide

example :
    tvmaze.ExtractMovieInfo ("Big Buck Bunny (2008).mp4") =
      { Title := "Big Buck Bunny", Year := 2008 } := by decide

example :
    tvmaze.ExtractMovieInfo ("Movie x264.mp4") =
      { Title := "Movie", Year := 0 } := by decide

example :
    generateTVFilenameName
      { MovieFormat := "", TVFormat := "\x7btitle\x7d S\x7bseason:02d\x7dE\x7bepisode:02d\x7d",
        LowerCase := false, Separator := " " }
      { Title := "Breaking Bad", Year := 2008, Season := 1, Episode := 5,
        EpisodeTitle := "Gray Matter" } ("1080p") ("h264") =
      "Breaking Bad S01E05" := by decide

example :
    generateFilenameName
      { MovieFormat := "\x7btitle\x7d (\x7byear\x7d)", TVFormat := "",
        LowerCase := true, Separator := "." }
      { Title := "The Matrix", Year := 1999, Overview := "" } ("") ("") =
      "the.matrix.(1999)" := by decide

end ScratchChecks

namespace VidKit

/-! ## Claim theorems -/

/-- C1: the claim states that for every filename matching a season/episode
pattern `ExtractMovieInfo` returns the sentinel `{Title := "", Year := 0}`.
The repository's own newest unit test (`TestExtractMovieInfo`, case "TV Show
pattern should not be treated as movie") expects exactly that sentinel for
`"Breaking Bad S01E01.mp4"`, but both `ExtractMovieInfo` versions present in
the source perform no TV-pattern check and return the (cleaned) basename as
the title on that very input. -/
theorem extractMovieInfo_tv_filename_not_sentinel :
    tmdb.ExtractMovieInfo ("Breaking Bad S01E01.mp4") =
      { Title := "Breaking Bad S01E01", Year := 0 } ∧
    tvmaze.ExtractMovieInfo ("Breaking Bad S01E01.mp4") =
      { Title := "Breaking Bad S01E01", Year := 0 } := by decide

/-- C2: the claim states that the year extraction accepts exactly the 4-digit
runs enclosed in `()` or `[]` and never a dot-delimited run.  The `tmdb.go`
version also matches `\.(\d{4})\.` and extracts `2008` from
`"Big.Buck.Bunny.2008.1080p.x264.mp4"`; the `tvmaze.go` version matches only
`\((\d{4})\)` and extracts nothing from `"The Matrix [1999].mp4"`.  The
claim's behavior is the one required by `CONTRIBUTING.md` and by the newest
`TestExtractMovieInfo` cases, which both versions in the source contradict. -/
theorem extractMovieInfo_year_delimiter_violations :
    (tmdb.ExtractMovieInfo ("Big.Buck.Bunny.2008.1080p.x264.mp4")).Year =
      2008 ∧
    (tvmaze.ExtractMovieInfo ("The Matrix [1999].mp4")).Year = 0 := by decide

/-- C3: the claim states that when no delimited year is found the original
base filename is returned verbatim with no cleaning, so that
`"The.Matrix.1999.mp4"` yields the title `"The.Matrix.1999"`.  The `tmdb.go`
version cleans unconditionally and returns `"The Matrix 1999"` (dots replaced
by spaces); the `tvmaze.go` version also cleans in the no-year branch
(e.g. it strips `x264`).  The newest `TestExtractMovieInfo` cases, which
expect verbatim preservation, fail against both versions. -/
theorem extractMovieInfo_no_year_not_verbatim :
    tmdb.ExtractMovieInfo ("The.Matrix.1999.mp4") =
      { Title := "The Matrix 1999", Year := 0 } ∧
    (tvmaze.ExtractMovieInfo ("Movie x264.mp4")).Title = "Movie" := by decide

/-! ### Lemmas about `goReplaceAll` -/

theorem mem_replaceAllAux {pat rep : List Char} :
    ∀ (fuel : Nat) (s : List Char) (c : Char),
      c ∈ replaceAllAux pat rep fuel s → c ∈ s ∨ c ∈ rep := by
  intro fuel
  induction fuel with
  | zero =>
    intro s c h
    cases s with
    | nil => simp [replaceAllAux] at h
    | cons a rest => exact Or.inl h
  | succ n ih =>
    intro s c h
    cases s with
    | nil => simp [replaceAllAux] at h
    | cons a rest =>
      simp only [replaceAllAux] at h
      split at h
      · rcases List.mem_append.mp h with hrep | hrec
        · exact Or.inr hrep
        · rcases ih _ _ hrec with hdrop | hrep
          · exact Or.inl (List.drop_subset _ _ hdrop)
          · exact Or.inr hrep
      · rcases List.mem_cons.mp h with rfl | hrec
        · exact Or.inl (List.mem_cons_self _ _)
        · rcases ih _ _ hrec with hrest | hrep
          · exact Or.inl (List.mem_cons_of_mem _ hrest)
          · exact Or.inr hrep

theorem mem_replaceAllAux_of_not_mem_pat {pat rep : List Char}
    (hpat : pat ≠ []) :
    ∀ (fuel : Nat) (s : List Char) (c : Char), s.length ≤ fuel → c ∈ s →
      c ∉ pat → c ∈ replaceAllAux pat rep fuel s := by
  intro fuel
  induction fuel with
  | zero =>
    intro s c hf hc _
    cases s with
    | nil => simp at hc
    | cons a rest => simp at hf
  | succ n ih =>
    intro s c hf hc hnot
    cases s with
    | nil => simp at hc
    | cons a rest =>
      simp only [replaceAllAux]
      split
      next hpre =>
        rcases List.isPrefixOf_iff_prefix.mp hpre with ⟨t, ht⟩
        have hdrop : (a :: rest).drop pat.length = t := by
          rw [← ht, List.drop_left]
        have hct : c ∈ t := by
          rcases List.mem_append.mp (ht ▸ hc) with hp | hct
          · exact absurd hp hnot
          · exact hct
        have hlen : t.length ≤ n := by
          have h1 : pat.length + t.length = (a :: rest).length := by
            rw [← ht, List.length_append]
          have h2 : 1 ≤ pat.length := by
            cases pat with
            | nil => exact absurd rfl hpat
            | cons p ps => simp
          simp only [List.length_cons] at h1 hf
          omega
        exact List.mem_append.mpr (Or.inr (ih _ _ (hdrop ▸ hlen) (hdrop ▸ hct)
          hnot))
      next =>
        rcases List.mem_cons.mp hc with rfl | hrest
        · exact List.mem_cons_self _ _
        · exact List.mem_cons_of_mem _
            (ih _ _ (by simpa using Nat.le_of_succ_le_succ (by simpa using hf))
              hrest hnot)

theorem isPrefixOf_self (l : List Char) : l.isPrefixOf l = true :=
  List.isPrefixOf_iff_prefix.mpr (List.prefix_refl l)

theorem replaceAllAux_self {pat rep : List Char} (hpat : pat ≠ [])
    (fuel : Nat) (hf : 1 ≤ fuel) : replaceAllAux pat rep fuel pat = rep := by
  cases fuel with
  | zero => omega
  | succ n =>
    cases pat with
    | nil => exact absurd rfl hpat
    | cons a rest =>
      simp only [replaceAllAux, isPrefixOf_self, if_pos, List.drop_length]
      cases n <;> simp [replaceAllAux]

theorem mem_goReplaceAll {s pat rep : String} {c : Char}
    (h : c ∈ (goReplaceAll s pat rep).data) : c ∈ s.data ∨ c ∈ rep.data := by
  unfold goReplaceAll at h
  split at h
  · exact Or.inl h
  · exact mem_replaceAllAux _ _ _ h

theorem mem_goReplaceAll_of_not_mem_pat {s pat rep : String} {c : Char}
    (hc : c ∈ s.data) (hnot : c ∉ pat.data) :
    c ∈ (goReplaceAll s pat rep).data := by
  unfold goReplaceAll
  split
  next => exact hc
  next hemp =>
    exact mem_replaceAllAux_of_not_mem_pat
      (by simpa [List.isEmpty_iff] using hemp) _ _ _ (Nat.le_refl _) hc hnot

theorem goReplaceAll_self {pat : String} (rep : String)
    (hpat : pat.data ≠ []) : goReplaceAll pat pat rep = rep := by
  unfold goReplaceAll
  rw [if_neg (by simpa [List.isEmpty_iff] using hpat)]
  have h1 : 1 ≤ pat.data.length := by
    cases hd : pat.data with
    | nil => exact absurd hd hpat
    | cons a l => simp [hd]
  have := @replaceAllAux_self pat.data rep.data hpat pat.data.length h1
  cases rep with
  | mk d => simpa using congrArg String.mk this

/-! ### Lemmas about `goToLower` -/

theorem toLowerChar_fixed_of_mem_map {c : Char} {l : List Char}
    (h : c ∈ l.map toLowerChar) : toLowerChar c = c := by
  rcases List.mem_map.mp h with ⟨a, _, rfl⟩
  exact toLowerChar_idem a

theorem map_toLowerChar_eq_self {l : List Char}
    (h : ∀ c ∈ l, toLowerChar c = c) : l.map toLowerChar = l := by
  induction l with
  | nil => rfl
  | cons a t ih =>
    simp only [List.map_cons]
    rw [h a (List.mem_cons_self a t),
      ih (fun c hc => h c (List.mem_cons_of_mem _ hc))]

theorem mem_fixed_of_map_eq_self {l : List Char}
    (h : l.map toLowerChar = l) : ∀ c ∈ l, toLowerChar c = c := by
  induction l with
  | nil => intro c hc; simp at hc
  | cons a t ih =>
    simp only [List.map_cons, List.cons.injEq] at h
    intro c hc
    rcases List.mem_cons.mp hc with rfl | hl
    · exact h.1
    · exact ih h.2 c hl

theorem goToLower_eq_self_of_fixed {s : String}
    (h : ∀ c ∈ s.data, toLowerChar c = c) : goToLower s = s := by
  unfold goToLower
  rw [map_toLowerChar_eq_self h]

theorem fixed_of_goToLower_eq_self {s : String}
    (h : goToLower s = s) : ∀ c ∈ s.data, toLowerChar c = c :=
  mem_fixed_of_map_eq_self (congrArg String.data h)

theorem goToLower_idem (s : String) : goToLower (goToLower s) = goToLower s :=
  goToLower_eq_self_of_fixed (fun _ hc => toLowerChar_fixed_of_mem_map hc)

/-! ### C6: lowercase interaction with the separator -/

theorem applyCaseAndSeparator_lower_fixed (cfg : Config)
    (hl : cfg.LowerCase = true) (hsep : goToLower cfg.Separator = cfg.Separator)
    (name : String) :
    goToLower (applyCaseAndSeparator cfg name) =
      applyCaseAndSeparator cfg name := by
  unfold applyCaseAndSeparator
  rw [hl]
  simp only [if_true]
  by_cases hs : cfg.Separator = (" ")
  · simp only [hs, ne_eq, not_true_eq_false, if_false]
    exact goToLower_idem name
  · rw [if_pos hs]
    apply goToLower_eq_self_of_fixed
    intro c hc
    rcases mem_goReplaceAll hc with hlow | hsepc
    · exact toLowerChar_fixed_of_mem_map hlow
    · exact fixed_of_goToLower_eq_self hsep c hsepc

/-- C6 (amended): with the lowercase option on, the rendered name equals its
own lowercase provided every character of the separator is fixed by
lowercasing; the code applies the lowercase pass before the separator
substitution, so characters introduced by an uppercase separator are not
lowercased (see the counterexample). -/
theorem render_lowercase_output (cfg : Config) (m : MovieMetadata)
    (tm : TVShowMetadata) (resolutionStr codec : String)
    (hl : cfg.LowerCase = true)
    (hsep : goToLower cfg.Separator = cfg.Separator) :
    goToLower (generateFilenameName cfg m resolutionStr codec) =
      generateFilenameName cfg m resolutionStr codec ∧
    goToLower (generateTVFilenameName cfg tm resolutionStr codec) =
      generateTVFilenameName cfg tm resolutionStr codec := by
  constructor
  · exact applyCaseAndSeparator_lower_fixed cfg hl hsep _
  · exact applyCaseAndSeparator_lower_fixed cfg hl hsep _

/-- C6 witness: a concrete lowercase render with the scene-style separator
`"."`, which lowercasing fixes. -/
theorem render_lowercase_output_witness :
    goToLower (generateFilenameName
        { MovieFormat := "\x7btitle\x7d (\x7byear\x7d)", TVFormat := "",
          LowerCase := true, Separator := "." }
        { Title := "The Matrix", Year := 1999, Overview := "" } ("") ("")) =
      generateFilenameName
        { MovieFormat := "\x7btitle\x7d (\x7byear\x7d)", TVFormat := "",
          LowerCase := true, Separator := "." }
        { Title := "The Matrix", Year := 1999, Overview := "" } ("") ("") ∧
    generateFilenameName
        { MovieFormat := "\x7btitle\x7d (\x7byear\x7d)", TVFormat := "",
          LowerCase := true, Separator := "." }
        { Title := "The Matrix", Year := 1999, Overview := "" } ("") ("") =
      "the.matrix.(1999)" :=
  ⟨(render_lowercase_output _ _
      { Title := "", Year := 0, Season := 0, Episode := 0, EpisodeTitle := "" }
      _ _ rfl (by decide)).1, by decide⟩

/-- C6 counterexample: with lowercase on and the separator `"X"`, the rendered
name `"aXb"` differs from its own lowercase `"axb"` — the claim's "the final
rendered string is lowercased, including any characters introduced by the
separator substitution" fails on the code. -/
theorem render_lowercase_output_counterexample :
    ¬goToLower (generateFilenameName
        { MovieFormat := "\x7btitle\x7d", TVFormat := "",
          LowerCase := true, Separator := "X" }
        { Title := "a b", Year := 0, Overview := "" } ("") ("")) =
      generateFilenameName
        { MovieFormat := "\x7btitle\x7d", TVFormat := "",
          LowerCase := true, Separator := "X" }
        { Title := "a b", Year := 0, Overview := "" } ("") ("") := by
  decide

/-! ### Lemmas about the multi-pattern replacer -/

theorem containsSub_singleton_mem {a : Char} {l : List Char}
    (h : containsSub [a] l = true) : a ∈ l := by
  induction l with
  | nil => simp [containsSub] at h
  | cons b rest ih =>
    simp only [containsSub] at h
    rcases Bool.or_eq_true_iff.mp h with hpre | hrec
    · have : a = b := by
        simpa [List.isPrefixOf] using hpre
      exact this ▸ List.mem_cons_self _ _
    · exact List.mem_cons_of_mem _ (ih hrec)

/-- No pattern of `rules` occurs anywhere in `l`. -/
def noRuleOccurrence (rules : List (List Char × List Char))
    (l : List Char) : Bool :=
  rules.all (fun r => !containsSub r.1 l)

theorem findRule_eq_none_of_noOcc {rules : List (List Char × List Char)}
    {l : List Char} (h : noRuleOccurrence rules l = true) :
    findRule rules l = none := by
  apply List.find?_eq_none.mpr
  intro r hr hp
  have hnc := List.all_eq_true.mp h r hr
  have hpre : r.1.isPrefixOf l = true := ((Bool.and_eq_true _ _).mp hp).2
  rw [containsSub_of_isPrefixOf hpre] at hnc
  simp at hnc

theorem noRuleOccurrence_tail {rules : List (List Char × List Char)}
    {c : Char} {rest : List Char}
    (h : noRuleOccurrence rules (c :: rest) = true) :
    noRuleOccurrence rules rest = true := by
  apply List.all_eq_true.mpr
  intro r hr
  have hnc := List.all_eq_true.mp h r hr
  by_contra hcon
  rw [containsSub_cons (by simpa using hcon)] at hnc
  simp at hnc

theorem multiReplaceAux_id_of_noOcc {rules : List (List Char × List Char)} :
    ∀ (fuel : Nat) (s : List Char), s.length ≤ fuel →
      noRuleOccurrence rules s = true → multiReplaceAux rules fuel s = s := by
  intro fuel
  induction fuel with
  | zero =>
    intro s hf _
    cases s with
    | nil => rfl
    | cons a rest => simp at hf
  | succ n ih =>
    intro s hf hocc
    cases s with
    | nil => rfl
    | cons a rest =>
      simp only [multiReplaceAux, findRule_eq_none_of_noOcc hocc]
      rw [ih rest (by simpa using Nat.le_of_succ_le_succ (by simpa using hf))
        (noRuleOccurrence_tail hocc)]

/-- If no rule pattern occurs in `s`, the Go replacer leaves `s` unchanged. -/
theorem multiReplace_id_of_noOcc {rules : List (String × String)} {s : String}
    (h : noRuleOccurrence (rules.map (fun r => (r.1.data, r.2.data)))
      s.data = true) : multiReplace rules s = s := by
  unfold multiReplace multiReplaceL
  rw [multiReplaceAux_id_of_noOcc _ _ (Nat.le_refl _) h]

/-- C5 (amended): the title cleaner's token removal is exact-case and its
vocabulary is 1080p, 720p, 480p, 360p, h264, x264, HDRip, BRRip, BluRay,
WEB-DL (no HDTV): an input containing those tokens in their listed spelling
has them removed, while a string in which no replacer pattern (token or
structural punctuation) occurs — for example one containing only case
variants such as `"HDRIP"`, `"X264"` or `"hdtv"` — passes through the
replacement pass unchanged. -/
theorem cleanupTitle_token_removal :
    tmdb.cleanupTitle ("Movie HDRip 1080p x264") = "Movie" ∧
    ∀ s : String,
      noRuleOccurrence
        (tmdb.movieReplacerRules.map (fun r => (r.1.data, r.2.data)))
        s.data = true →
      multiReplace tmdb.movieReplacerRules s = s := by
  exact ⟨by decide, fun s h => multiReplace_id_of_noOcc h⟩

/-- C5 witness: the non-exact case variants `"HDRIP"`, `"hdtv"` and `"X264"`
are not removed — the replacement pass and the whole cleaner leave the string
unchanged. -/
theorem cleanupTitle_token_removal_witness :
    multiReplace tmdb.movieReplacerRules ("Movie HDRIP hdtv X264") =
      "Movie HDRIP hdtv X264" ∧
    tmdb.cleanupTitle ("Movie HDRIP hdtv X264") = "Movie HDRIP hdtv X264" :=
  ⟨cleanupTitle_token_removal.2 ("Movie HDRIP hdtv X264") (by decide),
    by decide⟩

/-- C5 counterexample: the claim says every case variant of a listed token is
removed; on the code the variant `"HDRIP"` still occurs in the cleaned
output. -/
theorem cleanupTitle_token_removal_counterexample :
    containsSub ("HDRIP").data (tmdb.cleanupTitle ("HDRIP")).data = true := by
  decide

/-! ### C4: the cleaned title contains no structural punctuation -/

/-- The structural punctuation characters the cleaner replaces by a space. -/
def isStructuralPunct (c : Char) : Bool :=
  c == '[' || c == ']' || c == '(' || c == ')' || c == '.' || c == '_'

/-- The cleaner's replacer rules with both components as character lists. -/
def tmdbCharRules : List (List Char × List Char) :=
  tmdb.movieReplacerRules.map (fun r => (r.1.data, r.2.data))

/-- The quality/codec token patterns of the cleaner's vocabulary. -/
def qualityTokenList : List (List Char) :=
  [("1080p").data, ("720p").data, ("480p").data, ("360p").data,
   ("h264").data, ("x264").data, ("HDRip").data, ("BRRip").data,
   ("BluRay").data, ("WEB-DL").data]

/-- No quality/codec token occurs as a substring of `l`. -/
def noTokenOccurrence (l : List Char) : Bool :=
  qualityTokenList.all (fun p => !containsSub p l)

theorem punct_rule_mem {c : Char} (h : isStructuralPunct c = true) :
    ([c], ([' '] : List Char)) ∈ tmdbCharRules := by
  simp only [isStructuralPunct, Bool.or_eq_true, beq_iff_eq] at h
  rcases h with ((((h | h) | h) | h) | h) | h <;> subst h <;> decide

theorem tmdbCharRules_rep_no_punct :
    ∀ r ∈ tmdbCharRules, ∀ c ∈ r.2, isStructuralPunct c = false := by decide

theorem head_not_punct_of_findRule_none {a : Char} {rest : List Char}
    (h : findRule tmdbCharRules (a :: rest) = none) :
    isStructuralPunct a = false := by
  by_contra hcon
  have hpunct : isStructuralPunct a = true := by simpa using hcon
  unfold findRule at h
  have := List.find?_eq_none.mp h _ (punct_rule_mem hpunct)
  simp [List.isPrefixOf] at this

theorem findRule_some_mem {rules : List (List Char × List Char)}
    {s : List Char} {r : List Char × List Char}
    (h : findRule rules s = some r) : r ∈ rules := by
  unfold findRule at h
  exact List.mem_of_find?_eq_some h

theorem findRule_some_pat_length {rules : List (List Char × List Char)}
    {s : List Char} {r : List Char × List Char}
    (h : findRule rules s = some r) : 1 ≤ r.1.length := by
  unfold findRule at h
  have hp := List.find?_some h
  cases hr : r.1 with
  | nil => rw [hr] at hp; simp at hp
  | cons x xs => simp [hr]

/-- The replacer output over the cleaner's rules contains no structural
punctuation: punctuation at the head always fires a rule, and every
replacement string is punctuation-free. -/
theorem multiReplaceAux_no_punct :
    ∀ (fuel : Nat) (s : List Char), s.length ≤ fuel →
      ∀ c ∈ multiReplaceAux tmdbCharRules fuel s,
        isStructuralPunct c = false := by
  intro fuel
  induction fuel with
  | zero =>
    intro s hf c hc
    cases s with
    | nil => simp [multiReplaceAux] at hc
    | cons a rest => simp at hf
  | succ n ih =>
    intro s hf c hc
    cases s with
    | nil => simp [multiReplaceAux] at hc
    | cons a rest =>
      simp only [multiReplaceAux] at hc
      split at hc
      next r hfind =>
        rcases List.mem_append.mp hc with hrep | hrec
        · exact tmdbCharRules_rep_no_punct r (findRule_some_mem hfind) c hrep
        · have hlen : ((a :: rest).drop r.1.length).length ≤ n := by
            have h1 := findRule_some_pat_length hfind
            rw [List.length_drop]
            simp only [List.length_cons] at hf ⊢
            omega
          exact ih _ hlen c hrec
      next hfind =>
        rcases List.mem_cons.mp hc with rfl | hrest
        · exact head_not_punct_of_findRule_none hfind
        · exact ih rest
            (by simpa using Nat.le_of_succ_le_succ (by simpa using hf)) c hrest

theorem mem_of_mem_dropWhile {p : Char → Bool} :
    ∀ {l : List Char} {c : Char}, c ∈ l.dropWhile p → c ∈ l := by
  intro l
  induction l with
  | nil => intro c hc; simp [List.dropWhile] at hc
  | cons a t ih =>
    intro c hc
    rw [List.dropWhile_cons] at hc
    split at hc
    · exact List.mem_cons_of_mem _ (ih hc)
    · exact hc

theorem mem_of_mem_goTrimSpaceL {l : List Char} {c : Char}
    (h : c ∈ goTrimSpaceL l) : c ∈ l := by
  unfold goTrimSpaceL trimRightSpace trimLeftSpace at h
  have h1 := mem_of_mem_dropWhile (List.mem_reverse.mp h)
  exact mem_of_mem_dropWhile (List.mem_reverse.mp h1)

theorem mem_collapseAux {c : Char} :
    ∀ (l : List Char) (b : Bool), c ∈ collapseAux b l → c = ' ' ∨ c ∈ l := by
  intro l
  induction l with
  | nil => intro b hc; simp [collapseAux] at hc
  | cons a t ih =>
    intro b hc
    simp only [collapseAux] at hc
    split at hc
    · split at hc
      · rcases ih true hc with h | h
        · exact Or.inl h
        · exact Or.inr (List.mem_cons_of_mem _ h)
      · rcases List.mem_cons.mp hc with rfl | hrec
        · exact Or.inl rfl
        · rcases ih true hrec with h | h
          · exact Or.inl h
          · exact Or.inr (List.mem_cons_of_mem _ h)
    · rcases List.mem_cons.mp hc with rfl | hrec
      · exact Or.inr (List.mem_cons_self _ _)
      · rcases ih false hrec with h | h
        · exact Or.inl h
        · exact Or.inr (List.mem_cons_of_mem _ h)

/-- Every character of a cleaned title is punctuation-free: the replacer pass
erases all structural punctuation and the later passes only drop characters
or insert spaces. -/
theorem cleanupTitle_no_punct (s : String) :
    ∀ c ∈ (tmdb.cleanupTitle s).data, isStructuralPunct c = false := by
  intro c hc
  rcases mem_collapseAux _ _ hc with rfl | hc2
  · decide
  · exact multiReplaceAux_no_punct _ _ (Nat.le_refl _) c
      (mem_of_mem_goTrimSpaceL hc2)

/-! ### C4: the collapse and trim passes fix already-cleaned strings -/

/-- No two adjacent `\s` characters. -/
def chainOK : List Char → Bool
  | [] => true
  | [_] => true
  | c :: d :: rest => !(isReSpace c && isReSpace d) && chainOK (d :: rest)

/-- Every `\s` character of the list is a plain blank `' '`. -/
def blanksOnly (l : List Char) : Bool :=
  l.all (fun c => !isReSpace c || c == ' ')

theorem bool_false_of_not_true {b : Bool} (h : ¬b = true) : b = false := by
  cases b with
  | false => rfl
  | true => exact absurd rfl h

theorem isReSpace_blank : isReSpace ' ' = true := by decide

theorem chainOK_tail {a : Char} {l : List Char}
    (h : chainOK (a :: l) = true) : chainOK l = true := by
  cases l with
  | nil => rfl
  | cons b t =>
    simp only [chainOK, Bool.and_eq_true] at h
    exact h.2

theorem blanksOnly_tail {a : Char} {l : List Char}
    (h : blanksOnly (a :: l) = true) : blanksOnly l = true := by
  simp only [blanksOnly, List.all_cons, Bool.and_eq_true] at h
  exact h.2

theorem blanksOnly_cons {a : Char} {l : List Char}
    (ha : (!isReSpace a || a == ' ') = true) (hl : blanksOnly l = true) :
    blanksOnly (a :: l) = true := by
  simp only [blanksOnly, List.all_cons, Bool.and_eq_true]
  exact ⟨ha, hl⟩

theorem collapseAux_nonspace_head (a : Char) (t : List Char) (b : Bool)
    (h : isReSpace a = false) :
    collapseAux b (a :: t) = a :: collapseAux false t := by
  simp [collapseAux, h]

theorem collapseAux_space_skip (a : Char) (t : List Char)
    (h : isReSpace a = true) :
    collapseAux true (a :: t) = collapseAux true t := by
  simp [collapseAux, h]

theorem collapseAux_space_emit (a : Char) (t : List Char)
    (h : isReSpace a = true) :
    collapseAux false (a :: t) = ' ' :: collapseAux true t := by
  simp [collapseAux, h]

theorem collapseAux_blanksOnly :
    ∀ (l : List Char) (b : Bool), blanksOnly (collapseAux b l) = true := by
  intro l
  induction l with
  | nil => intro b; rfl
  | cons a t ih =>
    intro b
    by_cases hsp : isReSpace a = true
    · cases b with
      | true => rw [collapseAux_space_skip a t hsp]; exact ih true
      | false =>
        rw [collapseAux_space_emit a t hsp]
        exact blanksOnly_cons (by decide) (ih true)
    · have ha := bool_false_of_not_true hsp
      rw [collapseAux_nonspace_head a t b ha]
      exact blanksOnly_cons (by simp [ha]) (ih false)

theorem collapseAux_true_head :
    ∀ (l : List Char) {c : Char} {rest : List Char},
      collapseAux true l = c :: rest → isReSpace c = false := by
  intro l
  induction l with
  | nil => intro c rest h; simp [collapseAux] at h
  | cons a t ih =>
    intro c rest h
    by_cases hsp : isReSpace a = true
    · rw [collapseAux_space_skip a t hsp] at h
      exact ih h
    · have ha := bool_false_of_not_true hsp
      rw [collapseAux_nonspace_head a t true ha] at h
      injection h with h1 _
      exact h1 ▸ ha

theorem chainOK_cons {a : Char} {l : List Char}
    (hhead : ∀ d t, l = d :: t → (isReSpace a && isReSpace d) = false)
    (htail : chainOK l = true) : chainOK (a :: l) = true := by
  cases l with
  | nil => rfl
  | cons d t =>
    simp only [chainOK, hhead d t rfl, Bool.not_false, Bool.true_and]
    exact htail

theorem collapseAux_chainOK :
    ∀ (l : List Char) (b : Bool), chainOK (collapseAux b l) = true := by
  intro l
  induction l with
  | nil => intro b; rfl
  | cons a t ih =>
    intro b
    by_cases hsp : isReSpace a = true
    · cases b with
      | true => rw [collapseAux_space_skip a t hsp]; exact ih true
      | false =>
        rw [collapseAux_space_emit a t hsp]
        apply chainOK_cons
        · intro d u hdu
          rw [collapseAux_true_head t hdu, Bool.and_false]
        · exact ih true
    · have ha := bool_false_of_not_true hsp
      rw [collapseAux_nonspace_head a t b ha]
      apply chainOK_cons
      · intro d u _
        rw [ha, Bool.false_and]
      · exact ih false

theorem collapseAux_id_of_norm :
    ∀ (l : List Char), chainOK l = true → blanksOnly l = true →
      collapseAux false l = l := by
  intro l
  induction l with
  | nil => intro _ _; rfl
  | cons a t ih =>
    intro hch hbl
    by_cases hsp : isReSpace a = true
    · have ha : a = ' ' := by
        have h1 := List.all_eq_true.mp hbl a (List.mem_cons_self _ _)
        simp [hsp] at h1
        exact h1
      subst ha
      rw [collapseAux_space_emit ' ' t isReSpace_blank]
      cases t with
      | nil => rfl
      | cons d u =>
        have hd : isReSpace d = false := by
          cases hdd : isReSpace d with
          | false => rfl
          | true =>
            exfalso
            have hfalse : chainOK (' ' :: d :: u) = false := by
              simp [chainOK, hdd, isReSpace_blank]
            rw [hch] at hfalse
            simp at hfalse
        rw [collapseAux_nonspace_head d u true hd,
          ← collapseAux_nonspace_head d u false hd,
          ih (chainOK_tail hch) (blanksOnly_tail hbl)]
    · have ha := bool_false_of_not_true hsp
      rw [collapseAux_nonspace_head a t false ha,
        ih (chainOK_tail hch) (blanksOnly_tail hbl)]

/-- The `\s+` collapse is idempotent. -/
theorem collapseAux_idem (l : List Char) :
    collapseAux false (collapseAux false l) = collapseAux false l :=
  collapseAux_id_of_norm _ (collapseAux_chainOK l false)
    (collapseAux_blanksOnly l false)

theorem dropWhile_head_false {p : Char → Bool} :
    ∀ {l : List Char} {c : Char} {t : List Char},
      l.dropWhile p = c :: t → p c = false := by
  intro l
  induction l with
  | nil => intro c t h; simp [List.dropWhile] at h
  | cons a u ih =>
    intro c t h
    rw [List.dropWhile_cons] at h
    split at h
    · exact ih h
    · rename_i hpa
      injection h with h1 _
      exact h1 ▸ bool_false_of_not_true hpa

theorem dropWhile_cons_of_false {p : Char → Bool} {a : Char} (t : List Char)
    (h : p a = false) : (a :: t).dropWhile p = a :: t := by
  rw [List.dropWhile_cons, if_neg (by simp [h])]

theorem collapseAux_getLast {d : Char} (hd : isReSpace d = false) :
    ∀ (l : List Char) (b : Bool), l.getLast? = some d →
      (collapseAux b l).getLast? = some d := by
  intro l
  induction l with
  | nil => intro b h; simp at h
  | cons a t ih =>
    intro b h
    cases t with
    | nil =>
      have ha : a = d := by simpa using h
      subst ha
      rw [collapseAux_nonspace_head a [] b hd]
      rfl
    | cons e u =>
      have hlast : (e :: u).getLast? = some d := by
        simpa [List.getLast?_cons_cons] using h
      by_cases hsp : isReSpace a = true
      · cases b with
        | true =>
          rw [collapseAux_space_skip a (e :: u) hsp]
          exact ih true hlast
        | false =>
          rw [collapseAux_space_emit a (e :: u) hsp]
          have hw2 := ih true hlast
          cases hw3 : collapseAux true (e :: u) with
          | nil => rw [hw3] at hw2; simp at hw2
          | cons x xs =>
            rw [hw3] at hw2
            rw [List.getLast?_cons_cons]
            exact hw2
      · rw [collapseAux_nonspace_head a (e :: u) b (bool_false_of_not_true hsp)]
        have hw2 := ih false hlast
        cases hw3 : collapseAux false (e :: u) with
        | nil => rw [hw3] at hw2; simp at hw2
        | cons x xs =>
          rw [hw3] at hw2
          rw [List.getLast?_cons_cons]
          exact hw2


/-! ### C4: structure of the trimmed-and-collapsed string -/

theorem isReSpace_false_of_goSpace_false {c : Char}
    (h : isGoSpace c = false) : isReSpace c = false := by
  cases hre : isReSpace c
  · rfl
  · rw [isGoSpace_of_isReSpace hre] at h
    exact h

theorem goTrimSpaceL_head_false :
    ∀ {l c t}, goTrimSpaceL l = c :: t → isGoSpace c = false := by
  intro l c t h
  unfold goTrimSpaceL trimRightSpace trimLeftSpace at h
  have hsplit :
      (l.dropWhile isGoSpace).reverse.takeWhile isGoSpace ++
        (l.dropWhile isGoSpace).reverse.dropWhile isGoSpace =
        (l.dropWhile isGoSpace).reverse :=
    List.takeWhile_append_dropWhile _ _
  have hw2 : l.dropWhile isGoSpace =
      ((l.dropWhile isGoSpace).reverse.dropWhile isGoSpace).reverse ++
        ((l.dropWhile isGoSpace).reverse.takeWhile isGoSpace).reverse := by
    have h2 := congrArg List.reverse hsplit
    rw [List.reverse_append, List.reverse_reverse] at h2
    exact h2.symm
  rw [h] at hw2
  rw [List.cons_append] at hw2
  exact dropWhile_head_false hw2

theorem goTrimSpaceL_getLast_false :
    ∀ {l : List Char} {d : Char}, (goTrimSpaceL l).getLast? = some d →
      isGoSpace d = false := by
  intro l d h
  unfold goTrimSpaceL trimRightSpace trimLeftSpace at h
  rw [List.getLast?_reverse] at h
  cases hdw : (l.dropWhile isGoSpace).reverse.dropWhile isGoSpace with
  | nil => rw [hdw] at h; simp at h
  | cons x xs =>
    rw [hdw] at h
    have hx : isGoSpace x = false := dropWhile_head_false hdw
    have hxd : x = d := by simpa using h
    exact hxd ▸ hx

theorem goTrimSpaceL_id {l : List Char}
    (hhead : ∀ c t, l = c :: t → isGoSpace c = false)
    (hlast : ∀ d, l.getLast? = some d → isGoSpace d = false) :
    goTrimSpaceL l = l := by
  cases l with
  | nil => rfl
  | cons a t =>
    have ha : isGoSpace a = false := hhead a t rfl
    unfold goTrimSpaceL trimLeftSpace
    rw [dropWhile_cons_of_false t ha]
    unfold trimRightSpace
    cases hr : (a :: t).reverse with
    | nil => simp at hr
    | cons x xs =>
      have hx : (a :: t).getLast? = some x := by
        rw [← List.head?_reverse, hr]
        rfl
      have hxs : isGoSpace x = false := hlast x hx
      rw [dropWhile_cons_of_false xs hxs, ← hr, List.reverse_reverse]

/-- Trimming fixes the collapse of a trimmed string: its ends are never white
space. -/
theorem trim_collapse_fix (v : List Char) :
    goTrimSpaceL (collapseSpacesL (goTrimSpaceL v)) =
      collapseSpacesL (goTrimSpaceL v) := by
  apply goTrimSpaceL_id
  · intro c t hct
    cases hu : goTrimSpaceL v with
    | nil =>
      rw [hu] at hct
      simp [collapseSpacesL, collapseAux] at hct
    | cons a u =>
      have ha := goTrimSpaceL_head_false hu
      have hra : isReSpace a = false := isReSpace_false_of_goSpace_false ha
      rw [hu] at hct
      unfold collapseSpacesL at hct
      rw [collapseAux_nonspace_head a u false hra] at hct
      injection hct with h1 _
      exact h1 ▸ ha
  · intro d hd
    cases hu : goTrimSpaceL v with
    | nil =>
      rw [hu] at hd
      simp [collapseSpacesL, collapseAux] at hd
    | cons a u =>
      cases hd0 : (a :: u).getLast? with
      | none => simp at hd0
      | some d0 =>
        have hg : isGoSpace d0 = false :=
          goTrimSpaceL_getLast_false (hu ▸ hd0)
        have hrd : isReSpace d0 = false := isReSpace_false_of_goSpace_false hg
        have hcl := collapseAux_getLast hrd (a :: u) false hd0
        rw [hu] at hd
        unfold collapseSpacesL at hd
        rw [hcl] at hd
        have : d0 = d := by simpa using hd
        exact this ▸ hg

/-! ### C4: the amended idempotence theorem -/

/-- Each pattern of the cleaner's replacer is either a quality token or a
single structural-punctuation character. -/
theorem tmdbCharRules_pattern_cases :
    ∀ r ∈ tmdbCharRules, r.1 ∈ qualityTokenList ∨
      (r.1.length = 1 ∧ ∀ c ∈ r.1, isStructuralPunct c = true) := by decide

/-- A cleaned title in which no quality token occurs hits no replacer rule at
all: punctuation never survives cleaning. -/
theorem cleanupTitle_noRuleOccurrence (s : String)
    (h : noTokenOccurrence (tmdb.cleanupTitle s).data = true) :
    noRuleOccurrence tmdbCharRules (tmdb.cleanupTitle s).data = true := by
  apply List.all_eq_true.mpr
  intro r hr
  rcases tmdbCharRules_pattern_cases r hr with htok | ⟨hlen, hpunct⟩
  · simpa using List.all_eq_true.mp h r.1 htok
  · cases hr1 : r.1 with
    | nil => rw [hr1] at hlen; simp at hlen
    | cons c rest =>
      have hrest : rest = [] := by
        rw [hr1] at hlen
        simpa using hlen
      subst hrest
      by_contra hcon
      have hsub : containsSub [c] (tmdb.cleanupTitle s).data = true := by
        simpa using hcon
      have hmem := containsSub_singleton_mem hsub
      have h1 := cleanupTitle_no_punct s c hmem
      have h2 := hpunct c (by rw [hr1]; exact List.mem_cons_self _ _)
      rw [h1] at h2
      simp at h2

/-- C4 (amended): the title cleaner is idempotent on every string whose
cleaned form contains no quality/codec token: `clean (clean s) = clean s`
whenever no token of the vocabulary occurs in `clean s`.  (Full idempotence
fails: a single removal pass can splice a new token together, see the
counterexample.)  Structural punctuation never survives cleaning, so only the
token condition is substantive. -/
theorem cleanupTitle_idempotent_on_token_free (s : String)
    (h : noTokenOccurrence (tmdb.cleanupTitle s).data = true) :
    tmdb.cleanupTitle (tmdb.cleanupTitle s) = tmdb.cleanupTitle s := by
  have h1 : multiReplace tmdb.movieReplacerRules (tmdb.cleanupTitle s) =
      tmdb.cleanupTitle s :=
    multiReplace_id_of_noOcc (cleanupTitle_noRuleOccurrence s h)
  show collapseSpaces (goTrimSpace (multiReplace tmdb.movieReplacerRules
    (tmdb.cleanupTitle s))) = tmdb.cleanupTitle s
  rw [h1]
  have hdata : collapseSpacesL (goTrimSpaceL (tmdb.cleanupTitle s).data) =
      (tmdb.cleanupTitle s).data := by
    have hv : (tmdb.cleanupTitle s).data = collapseSpacesL (goTrimSpaceL
        (multiReplace tmdb.movieReplacerRules s).data) := rfl
    rw [hv, trim_collapse_fix]
    exact collapseAux_idem _
  show (⟨collapseSpacesL (goTrimSpaceL (tmdb.cleanupTitle s).data)⟩ :
    String) = tmdb.cleanupTitle s
  rw [hdata]

/-- C4 witness: the already-clean title `"The Matrix"` contains no token and
cleaning it twice equals cleaning it once. -/
theorem cleanupTitle_idempotent_witness :
    noTokenOccurrence (tmdb.cleanupTitle ("The Matrix")).data = true ∧
    tmdb.cleanupTitle (tmdb.cleanupTitle ("The Matrix")) =
      tmdb.cleanupTitle ("The Matrix") :=
  ⟨by decide, cleanupTitle_idempotent_on_token_free ("The Matrix") (by decide)⟩

/-- C4 counterexample: cleaning `"10801080pp"` once removes the inner
`"1080p"` and splices a new `"1080p"` together; cleaning twice removes it.
`clean (clean s) ≠ clean s`, refuting the claimed idempotence for all
strings. -/
theorem cleanupTitle_idempotent_counterexample :
    ¬tmdb.cleanupTitle (tmdb.cleanupTitle ("10801080pp")) =
      tmdb.cleanupTitle ("10801080pp") := by
  decide

/-! ### C7: no filesystem-unsafe-character replacement pass exists -/

theorem mem_applyCaseAndSeparator {c : Char} (cfg : Config) {name : String}
    (hfix : toLowerChar c = c) (hsp : c ∉ (" " : String).data)
    (hc : c ∈ name.data) : c ∈ (applyCaseAndSeparator cfg name).data := by
  simp only [applyCaseAndSeparator]
  have hlow : c ∈ (if cfg.LowerCase then goToLower name else name).data := by
    split
    · exact List.mem_map.mpr ⟨c, hc, hfix⟩
    · exact hc
  split
  · exact mem_goReplaceAll_of_not_mem_pat hlow hsp
  · exact hlow

/-- C7 (amended): the renderer performs no replacement of filesystem-unsafe
characters — a `':'` contained in the movie title survives verbatim into the
rendered filename component (shown for `generateFilename` with the template
`"{title}"`; no `/ \ : * ? " < > |` pass exists anywhere in the pipeline). -/
theorem render_keeps_unsafe_chars (cfg : Config) (m : MovieMetadata)
    (resolutionStr codec : String)
    (hfmt : cfg.MovieFormat = ("\x7btitle\x7d"))
    (hc : ':' ∈ m.Title.data) :
    ':' ∈ (generateFilenameName cfg m resolutionStr codec).data := by
  simp only [generateFilenameName]
  rw [hfmt, goReplaceAll_self _ (by decide)]
  apply mem_applyCaseAndSeparator cfg (by decide) (by decide)
  refine mem_goReplaceAll_of_not_mem_pat ?_ (by decide)
  refine mem_goReplaceAll_of_not_mem_pat ?_ (by decide)
  refine mem_goReplaceAll_of_not_mem_pat ?_ (by decide)
  exact hc

/-- C7 witness: the title `"Alien: Covenant"` renders (template `{title}`,
default options) to itself, colon included. -/
theorem render_keeps_unsafe_chars_witness :
    ':' ∈ (generateFilenameName
      { MovieFormat := "\x7btitle\x7d", TVFormat := "",
        LowerCase := false, Separator := " " }
      { Title := "Alien: Covenant", Year := 0, Overview := "" }
      ("") ("")).data ∧
    generateFilenameName
      { MovieFormat := "\x7btitle\x7d", TVFormat := "",
        LowerCase := false, Separator := " " }
      { Title := "Alien: Covenant", Year := 0, Overview := "" } ("") ("") =
      "Alien: Covenant" :=
  ⟨render_keeps_unsafe_chars _ _ _ _ rfl (by decide), by decide⟩

/-- C7 counterexample: the claim says the rendered filename component never
contains `':'` even when a substituted title contains it; on the code the
colon of `"A:B"` appears in the output. -/
theorem render_keeps_unsafe_chars_counterexample :
    ':' ∈ (generateFilenameName
      { MovieFormat := "\x7btitle\x7d", TVFormat := "",
        LowerCase := false, Separator := " " }
      { Title := "A:B", Year := 0, Overview := "" } ("") ("")).data := by
  decide

theorem episodeTitleOrDefault_empty (ep : String) :
    episodeTitleOrDefault ("") ep = ("Episode ") ++ ep := by
  simp [episodeTitleOrDefault]

theorem episodeTitleOrDefault_of_ne {t : String} (ep : String)
    (h : ¬t = ("")) : episodeTitleOrDefault t ep = t := by
  simp [episodeTitleOrDefault, h]

theorem episodePrefix_append_ne_empty (s : String) :
    ¬(("Episode ") ++ s) = ("") := by
  intro h
  have hd : (("Episode ") ++ s).data = ("" : String).data := congrArg String.data h
  simp [String.data_append] at hd

/-- C9: whenever the metadata record's `EpisodeTitle` is empty,
`generateTVFilename` substitutes `{episode_title}` by `"Episode "` followed by
the unpadded decimal episode number — the rendered name is the same as for a
record whose episode title is that fallback string (and in particular never
the empty string). -/
theorem generateTVFilename_empty_episode_title (cfg : Config)
    (m : TVShowMetadata) (resolutionStr codec : String)
    (h : m.EpisodeTitle = ("")) :
    generateTVFilenameName cfg m resolutionStr codec =
      generateTVFilenameName cfg
        { m with EpisodeTitle := ("Episode ") ++ goItoa m.Episode }
        resolutionStr codec := by
  simp only [generateTVFilenameName]
  rw [h, episodeTitleOrDefault_empty,
    episodeTitleOrDefault_of_ne _ (episodePrefix_append_ne_empty _)]

/-- C9 witness: at a concrete record with an empty episode title the theorem
applies, and the rendered `{episode_title}` template is `"Episode 5"`. -/
theorem generateTVFilename_empty_episode_title_witness :
    generateTVFilenameName
      { MovieFormat := "", TVFormat := "\x7bepisode_title\x7d",
        LowerCase := false, Separator := " " }
      { Title := "BB", Year := 2008, Season := 1, Episode := 5,
        EpisodeTitle := "" } ("") ("") =
      generateTVFilenameName
        { MovieFormat := "", TVFormat := "\x7bepisode_title\x7d",
          LowerCase := false, Separator := " " }
        { Title := "BB", Year := 2008, Season := 1, Episode := 5,
          EpisodeTitle := ("Episode ") ++ goItoa (5 : Int) } ("") ("") ∧
    generateTVFilenameName
      { MovieFormat := "", TVFormat := "\x7bepisode_title\x7d",
        LowerCase := false, Separator := " " }
      { Title := "BB", Year := 2008, Season := 1, Episode := 5,
        EpisodeTitle := "" } ("") ("") = "Episode 5" :=
  ⟨generateTVFilename_empty_episode_title _ _ _ _ rfl, by decide⟩

/-- C8: rendering `"{title} S{season:02d}E{episode:02d}"` with title
`"Breaking Bad"`, season 1, episode 5, separator `" "` and lowercase off
yields `"Breaking Bad S01E05"`; with the unpadded tokens `{season}` and
`{episode}` the same record renders as `"Breaking Bad S1E5"`. -/
theorem generateTVFilename_zero_padding :
    generateTVFilenameName
      { MovieFormat := "",
        TVFormat := "\x7btitle\x7d S\x7bseason:02d\x7dE\x7bepisode:02d\x7d",
        LowerCase := false, Separator := " " }
      { Title := "Breaking Bad", Year := 2008, Season := 1, Episode := 5,
        EpisodeTitle := "Gray Matter" } ("1080p") ("h264") =
      "Breaking Bad S01E05" ∧
    generateTVFilenameName
      { MovieFormat := "",
        TVFormat := "\x7btitle\x7d S\x7bseason\x7dE\x7bepisode\x7d",
        LowerCase := false, Separator := " " }
      { Title := "Breaking Bad", Year := 2008, Season := 1, Episode := 5,
        EpisodeTitle := "Gray Matter" } ("1080p") ("h264") =
      "Breaking Bad S1E5" := by decide

/-! ### C10: `SearchMovie` year retry and error behavior -/

/-- Whether an `Except` result is an error. -/
abbrev isErr {α : Type} (r : Except String α) : Prop := ∃ e, r = .error e

/-- C10: with a positive search year, `SearchMovie` first queries the client
with the year option; when that query succeeds with zero results it retries
the same title without the year; it returns an error exactly when a client
call fails or both search attempts return zero results, and on success it
returns the details of the first result of the attempt that produced
results. -/
theorem searchMovie_year_retry (p : TMDbClientModel) (search : MovieSearch)
    (lang : String) (hy : search.Year > 0) :
    (isErr (tmdb.SearchMovie p search lang) ↔
      (isErr (p.GetSearchMovies search.Title ⟨lang, some search.Year⟩) ∨
       (∃ sr, p.GetSearchMovies search.Title ⟨lang, some search.Year⟩ =
          .ok sr ∧ sr.Results = [] ∧
          (isErr (p.GetSearchMovies search.Title ⟨lang, none⟩) ∨
           (∃ sr2, p.GetSearchMovies search.Title ⟨lang, none⟩ = .ok sr2 ∧
             sr2.Results = []) ∨
           (∃ sr2 r0 t, p.GetSearchMovies search.Title ⟨lang, none⟩ =
              .ok sr2 ∧ sr2.Results = r0 :: t ∧
              isErr (p.GetMovieDetails r0.ID ⟨lang, none⟩)))) ∨
       (∃ sr r0 t, p.GetSearchMovies search.Title ⟨lang, some search.Year⟩ =
          .ok sr ∧ sr.Results = r0 :: t ∧
          isErr (p.GetMovieDetails r0.ID ⟨lang, some search.Year⟩)))) ∧
    (∀ sr r0 t d, p.GetSearchMovies search.Title ⟨lang, some search.Year⟩ =
        .ok sr → sr.Results = r0 :: t →
        p.GetMovieDetails r0.ID ⟨lang, some search.Year⟩ = .ok d →
        tmdb.SearchMovie p search lang = .ok
          { Title := d.Title, Year := releaseDateYear d.ReleaseDate,
            Overview := d.Overview }) ∧
    (∀ sr sr2 r0 t d, p.GetSearchMovies search.Title
        ⟨lang, some search.Year⟩ = .ok sr → sr.Results = [] →
        p.GetSearchMovies search.Title ⟨lang, none⟩ = .ok sr2 →
        sr2.Results = r0 :: t →
        p.GetMovieDetails r0.ID ⟨lang, none⟩ = .ok d →
        tmdb.SearchMovie p search lang = .ok
          { Title := d.Title, Year := releaseDateYear d.ReleaseDate,
            Overview := d.Overview }) := by
  have hopt : (if search.Year > 0 then some search.Year else none) =
      some search.Year := if_pos hy
  refine ⟨?_, ?_, ?_⟩
  · simp only [tmdb.SearchMovie, hopt]
    split
    next e hA =>
      constructor
      · intro _
        exact Or.inl ⟨e, hA⟩
      · intro _
        exact ⟨_, rfl⟩
    next sr hA =>
      split
      next hres =>
        rw [if_pos hy]
        split
        next e2 hB =>
          constructor
          · intro _
            exact Or.inr (Or.inl ⟨sr, hA, hres, Or.inl ⟨e2, hB⟩⟩)
          · intro _
            exact ⟨_, rfl⟩
        next sr2 hB =>
          split
          next hres2 =>
            constructor
            · intro _
              exact Or.inr (Or.inl ⟨sr, hA, hres,
                Or.inr (Or.inl ⟨sr2, hB, hres2⟩)⟩)
            · intro _
              exact ⟨_, rfl⟩
          next r0 t hres2 =>
            unfold tmdb.detailsStep
            split
            next e3 hD =>
              constructor
              · intro _
                exact Or.inr (Or.inl ⟨sr, hA, hres, Or.inr (Or.inr
                  ⟨sr2, r0, t, hB, hres2, ⟨e3, hD⟩⟩)⟩)
              · intro _
                exact ⟨_, rfl⟩
            next d hD =>
              constructor
              · rintro ⟨e, he⟩
                cases he
              · rintro (⟨e, he⟩ | ⟨srx, hsrx, hresx, hrest⟩ |
                  ⟨srx, r0x, tx, hsrx, hresx, hex⟩)
                · rw [hA] at he
                  cases he
                · rw [hA] at hsrx
                  injection hsrx with h1
                  subst h1
                  rcases hrest with ⟨e2, he2⟩ | ⟨sr2y, hsr2y, hres2y⟩ |
                    ⟨sr2y, r0y, ty, hsr2y, hres2y, he3⟩
                  · rw [hB] at he2
                    cases he2
                  · rw [hB] at hsr2y
                    injection hsr2y with h2
                    subst h2
                    rw [hres2] at hres2y
                    cases hres2y
                  · rw [hB] at hsr2y
                    injection hsr2y with h2
                    subst h2
                    rw [hres2] at hres2y
                    injection hres2y with h3 h4
                    subst h3
                    subst h4
                    rcases he3 with ⟨e3, he3⟩
                    rw [hD] at he3
                    cases he3
                · rw [hA] at hsrx
                  injection hsrx with h1
                  subst h1
                  rw [hres] at hresx
                  cases hresx
      next r0 t hres =>
        unfold tmdb.detailsStep
        split
        next e3 hD =>
          constructor
          · intro _
            exact Or.inr (Or.inr ⟨sr, r0, t, hA, hres, ⟨e3, hD⟩⟩)
          · intro _
            exact ⟨_, rfl⟩
        next d hD =>
          constructor
          · rintro ⟨e, he⟩
            cases he
          · rintro (⟨e, he⟩ | ⟨srx, hsrx, hresx, hrest⟩ |
              ⟨srx, r0x, tx, hsrx, hresx, hex⟩)
            · rw [hA] at he
              cases he
            · rw [hA] at hsrx
              injection hsrx with h1
              subst h1
              rw [hres] at hresx
              cases hresx
            · rw [hA] at hsrx
              injection hsrx with h1
              subst h1
              rw [hres] at hresx
              injection hresx with h3 h4
              subst h3
              subst h4
              rcases hex with ⟨ex, hex⟩
              rw [hD] at hex
              cases hex
  · intro sr r0 t d hA hres hD
    simp only [tmdb.SearchMovie, tmdb.detailsStep, hopt, hA, hres, hD]
  · intro sr sr2 r0 t d hA hres hB hres2 hD
    simp only [tmdb.SearchMovie, hopt, hA, hres]
    rw [if_pos hy]
    simp only [tmdb.detailsStep, hB, hres2, hD]

/-- C10 witness: a concrete client that returns no results with the year
option and one result without it; `SearchMovie` succeeds via the retry with
the first result's details. -/
theorem searchMovie_year_retry_witness :
    ({ Title := "Big Buck Bunny", Year := 2008 } : MovieSearch).Year > 0 ∧
    tmdb.SearchMovie
      { GetSearchMovies := fun _ o =>
          match o.year with
          | some _ => .ok { Results := [] }
          | none => .ok { Results := [{ ID := 7 }] },
        GetMovieDetails := fun _ _ =>
          .ok { Title := "Big Buck Bunny", ReleaseDate := "2008-04-10",
                Overview := "a short film" } }
      { Title := "Big Buck Bunny", Year := 2008 } ("en") =
      .ok { Title := "Big Buck Bunny",
            Year := releaseDateYear ("2008-04-10"),
            Overview := "a short film" } :=
  ⟨by decide,
    (searchMovie_year_retry _ _ _ (by decide)).2.2
      { Results := [] } { Results := [{ ID := 7 }] } { ID := 7 } [] _
      rfl rfl rfl rfl rfl⟩

end VidKit
